import Mathlib

/-!
Verification of the credential-rotation pool (ApiKeyService) and the
model-fallback dispatcher (GroqService) of the legalswami backend.

The embedding follows the latest iteration of each service present in the
repository: the fail-soft ApiKeyService (multi-source key collection,
warning-and-skip on bad keys, null on empty pool) and the GroqService whose
model list is trimmed and de-duplicated with a LinkedHashSet.

External collaborators (AES decryption, Base64 decoding, the upstream HTTP
endpoint and the JSON content extraction) are modelled as oracle functions;
everything the services themselves compute is embedded directly.

Java maps are modelled as association lists.  The entry list of
keyUsageTracker stands for the iteration order of the ConcurrentHashMap,
which Java does not guarantee to be the insertion order; availableKeys is an
ArrayList and does record insertion order.
-/

namespace LegalSwami

/-- Character class removed by java.lang.String.trim: every char up to U+0020. -/
def isJavaSpace (c : Char) : Bool := c.toNat ≤ 32

/-- The character class [a-zA-Z0-9] of the key patterns (ASCII, as in Java). -/
def isAsciiLetterOrDigit (c : Char) : Bool :=
  (65 ≤ c.toNat && c.toNat ≤ 90) || (97 ≤ c.toNat && c.toNat ≤ 122) ||
  (48 ≤ c.toNat && c.toNat ≤ 57)

/-- Drop Java-space characters from both ends of a char list. -/
def trimList (l : List Char) : List Char :=
  ((l.dropWhile isJavaSpace).reverse.dropWhile isJavaSpace).reverse

/-- java.lang.String.trim. -/
def javaTrim (s : String) : String := String.mk (trimList s.data)

/-- java.lang.String.startsWith. -/
def javaStartsWith (s pre : String) : Bool := pre.data.isPrefixOf s.data

/-- java.lang.String.contains (substring test). -/
def javaContains (s sub : String) : Bool := decide (List.IsInfix sub.data s.data)

/-- Cut a char list at every comma (the pieces, in order, commas dropped). -/
def splitCommaChars : List Char → List Char → List String
  | [], acc => [String.mk acc.reverse]
  | c :: rest, acc =>
    if c = ',' then String.mk acc.reverse :: splitCommaChars rest []
    else splitCommaChars rest (c :: acc)

/-- java.lang.String.split(",") with limit 0: split at commas, then remove
trailing empty strings; splitting a string with no separator keeps it whole. -/
def javaSplitComma (s : String) : List String :=
  let parts := splitCommaChars s.data []
  if parts.length == 1 then parts
  else (parts.reverse.dropWhile (· == "")).reverse

/-- Insertion into a LinkedHashSet: keep first occurrences, preserve order. -/
def dedupPreserve (l : List String) : List String :=
  l.foldl (fun acc m => if acc.contains m then acc else acc ++ [m]) []

/-- Map.get with default 0 on an association list (counters start present). -/
def getAssoc : List (String × Nat) → String → Nat
  | [], _ => 0
  | e :: rest, k => if e.1 = k then e.2 else getAssoc rest k

/-- Map.put on an association list: overwrite the binding of the key if
present, otherwise append a new binding. -/
def putAssoc : List (String × Nat) → String → Nat → List (String × Nat)
  | [], k, v => [(k, v)]
  | e :: rest, k, v => if e.1 = k then (k, v) :: rest else e :: putAssoc rest k v

/-- Incrementing the counter object stored under a key (incrementRequestCount
reached through Map.get). -/
def bumpAssoc (l : List (String × Nat)) (k : String) : List (String × Nat) :=
  l.map (fun e => if e.1 = k then (e.1, e.2 + 1) else e)

/-- Map.remove on an association list (a map holds at most one binding per
key, so removing the binding is removing every pair with that key). -/
def removeAssoc (l : List (String × Nat)) (k : String) : List (String × Nat) :=
  l.filter (fun e => decide (e.1 ≠ k))

namespace ApiKeyService

/-- State of ApiKeyService: availableKeys is the ArrayList of usable keys (in
insertion order); keyUsageTracker is the ConcurrentHashMap from key to its
request count, listed in the iteration order of the map. -/
structure State where
  availableKeys : List String
  keyUsageTracker : List (String × Nat)
deriving DecidableEq, Repr

/-- Characters allowed in the body of the Base64 detection pattern. -/
def isBase64Char (c : Char) : Bool := isAsciiLetterOrDigit c || c == '+' || c == '/'

/-- The regular expression used by isProbablyEncrypted: one or more Base64
body characters followed by at most two = padding characters. -/
def matchesBase64Regex (key : String) : Bool :=
  let cs := key.data
  let body := cs.takeWhile isBase64Char
  let rest := cs.dropWhile isBase64Char
  !body.isEmpty && rest.all (· == '=') && decide (rest.length ≤ 2)

/-- isProbablyEncrypted: a key that starts with gsk_ and is longer than 40
characters is plain; otherwise the key is considered encrypted exactly when
it matches the Base64 pattern and the Base64 decoder accepts it (the decoder
acceptance is the oracle b64ok). -/
def isProbablyEncrypted (b64ok : String → Bool) (key : String) : Bool :=
  if javaStartsWith key "gsk_" && decide (key.length > 40) then false
  else if matchesBase64Regex key && b64ok key then true
  else false

/-- The GROQ_KEY_PATTERN regular expression: gsk_ followed by one or more
ASCII letters or digits, anchored at both ends. -/
def groqKeyPattern (key : String) : Bool :=
  match key.data with
  | 'g' :: 's' :: 'k' :: '_' :: rest => !rest.isEmpty && rest.all isAsciiLetterOrDigit
  | _ => false

/-- isValidGroqKey: length at least 40, gsk_ prefix, and the full pattern. -/
def isValidGroqKey (key : String) : Bool :=
  decide (key.length ≥ 40) && javaStartsWith key "gsk_" && groqKeyPattern key

/-- decryptApiKey with its two fallbacks.  aes is the AES/ECB decryption
oracle (none when the cipher throws); b64 is the plain Base64-decode-to-UTF8
oracle (none when decoding throws).  A none result models the method
throwing; the caller catches it. -/
def decryptApiKey (aes b64 : String → Option String) (encryptedKey : String) : Option String :=
  match aes encryptedKey with
  | some plain => some plain
  | none =>
    if javaStartsWith encryptedKey "gsk_" && decide (encryptedKey.length > 30) then
      some encryptedKey
    else
      match b64 encryptedKey with
      | some decoded => some decoded
      | none => none

/-- Collection phase of init: merge the five configuration sources in order,
trimming each value and skipping nulls and blanks. -/
def collectRawKeys (singleApiKey : Option String) (rawKeys : List String)
    (envApiKey : Option String) (envApiKeys : List String)
    (numberedKeys : List (Option String)) : List String :=
  (match singleApiKey with
   | some s => if javaTrim s = "" then [] else [javaTrim s]
   | none => []) ++
  (rawKeys.filterMap fun k => if javaTrim k = "" then none else some (javaTrim k)) ++
  (match envApiKey with
   | some s => if javaTrim s = "" then [] else [javaTrim s]
   | none => []) ++
  (envApiKeys.filterMap fun k => if javaTrim k = "" then none else some (javaTrim k)) ++
  (numberedKeys.filterMap fun k? =>
    match k? with
    | some s => if javaTrim s = "" then none else some (javaTrim s)
    | none => none)

/-- The per-key body of the processing loop of init, as a resolution
function: trim, decide encrypted or plain, decrypt if needed (a failed
decryption is caught and the key skipped), then keep the key only if it is a
syntactically valid Groq key. -/
def resolveKey (aes b64 : String → Option String) (rawKey : String) : Option String :=
  if javaTrim rawKey = "" then none
  else
    let key := javaTrim rawKey
    match
      (if isProbablyEncrypted (fun s => (b64 s).isSome) key
       then decryptApiKey aes b64 key
       else some key) with
    | none => none
    | some decryptedKey =>
      if isValidGroqKey decryptedKey then some decryptedKey else none

/-- Body of the key-processing loop of init: skip a blank key; decrypt when
the key looks encrypted, the thrown-and-caught decryption failure skipping
the key; append a validated key to availableKeys and track it with a fresh
zero counter; otherwise leave the state unchanged (warning only). -/
def processKey (aes b64 : String → Option String) (st : State) (rawKey : String) : State :=
  if javaTrim rawKey = "" then st
  else
    let key := javaTrim rawKey
    match
      (if isProbablyEncrypted (fun s => (b64 s).isSome) key
       then decryptApiKey aes b64 key
       else some key) with
    | none => st
    | some decryptedKey =>
      if isValidGroqKey decryptedKey then
        { availableKeys := st.availableKeys ++ [decryptedKey],
          keyUsageTracker := putAssoc st.keyUsageTracker decryptedKey 0 }
      else st

/-- init of ApiKeyService: collect the raw keys from every source, then for
each key decrypt if needed and validate; valid keys are appended to
availableKeys and tracked with a fresh zero counter; every failure is caught,
logged and skipped, so initialization always completes with a state. -/
def init (aes b64 : String → Option String) (singleApiKey : Option String)
    (rawKeys : List String) (envApiKey : Option String) (envApiKeys : List String)
    (numberedKeys : List (Option String)) : State :=
  (collectRawKeys singleApiKey rawKeys envApiKey envApiKeys numberedKeys).foldl
    (processKey aes b64) { availableKeys := [], keyUsageTracker := [] }

/-- Stream.min with Comparator.comparingInt on the request count: reduce that
keeps the earlier entry on ties, so the first minimal entry in iteration
order wins. -/
def minEntryAux : (String × Nat) → List (String × Nat) → (String × Nat)
  | b, [] => b
  | b, e :: rest => minEntryAux (if e.2 < b.2 then e else b) rest

/-- The least-used key of the tracker, none when the tracker is empty. -/
def minByRequestCount : List (String × Nat) → Option String
  | [] => none
  | e :: rest => some (minEntryAux e rest).1

/-- getRotatedKey: null on an empty pool; otherwise the least-used tracked
key, whose counter is incremented in the same synchronized operation.  When
the tracker is empty the orElse fallback picks availableKeys.get(0), the
subsequent tracker lookup throws, the catch block swallows the exception and
the method returns availableKeys.get(0) without incrementing anything. -/
def getRotatedKey (st : State) : Option String × State :=
  if st.availableKeys.isEmpty then (none, st)
  else
    match minByRequestCount st.keyUsageTracker with
    | some leastUsedKey =>
      (some leastUsedKey,
       { st with keyUsageTracker := bumpAssoc st.keyUsageTracker leastUsedKey })
    | none => (st.availableKeys.head?, st)

/-- markKeyAsInvalid: remove the key from the ArrayList (first occurrence)
and drop its binding from the tracker map. -/
def markKeyAsInvalid (apiKey : String) (st : State) : State :=
  { availableKeys := st.availableKeys.erase apiKey,
    keyUsageTracker := removeAssoc st.keyUsageTracker apiKey }

/-- getAvailableKeyCount. -/
def getAvailableKeyCount (st : State) : Nat := st.availableKeys.length

/-- hasApiKeys: the pool readiness report. -/
def hasApiKeys (st : State) : Bool := !st.availableKeys.isEmpty

/-- M sequential getRotatedKey calls, keeping only the final state. -/
def acquireIter : Nat → State → State
  | 0, st => st
  | m + 1, st => acquireIter m (getRotatedKey st).2

/-- The request counters currently stored in the tracker. -/
def trackerCounts (st : State) : List Nat := st.keyUsageTracker.map Prod.snd

/-- An operation on the pool: an acquisition or a retirement. -/
inductive PoolOp where
  | acquire
  | retire (k : String)

/-- Run a sequence of pool operations, collecting the acquisition results. -/
def runPoolOps : List PoolOp → State → State × List (Option String)
  | [], st => (st, [])
  | .acquire :: rest, st =>
    let a := getRotatedKey st
    let r := runPoolOps rest a.2
    (r.1, a.1 :: r.2)
  | .retire k :: rest, st => runPoolOps rest (markKeyAsInvalid k st)

end ApiKeyService

namespace GroqService

/-- Dispatcher state: the ApiKeyService collaborator, the immutable model
list, the sticky cursor, and the per-model failure and success counters. -/
structure State where
  apiKeyService : ApiKeyService.State
  availableModels : List String
  currentModelIndex : Nat
  modelFailureCount : List (String × Nat)
  modelSuccessCount : List (String × Nat)
deriving DecidableEq, Repr

/-- An upstream HTTP exchange outcome: a 2xx body, or a 4xx/5xx status with
its error body. -/
inductive HttpResponse where
  | ok (body : String)
  | err (status : Nat) (body : String)
deriving DecidableEq, Repr

/-- Whether the response is a 4xx/5xx error. -/
def HttpResponse.isErr : HttpResponse → Bool
  | .ok _ => false
  | .err _ _ => true

/-- Model-list part of init: split the configured string at commas, trim each
entry and de-duplicate through a LinkedHashSet preserving first-occurrence
order; an absent or blank configuration yields the built-in default list. -/
def initModels (modelsConfig : String) : List String :=
  if javaTrim modelsConfig ≠ "" then
    dedupPreserve ((javaSplitComma modelsConfig).map javaTrim)
  else
    dedupPreserve ["llama-3.3-70b-versatile", "llama-3.1-8b-instant",
      "llama3-70b-8192", "llama3-8b-8192", "mixtral-8x7b-32768"]

/-- init of GroqService: build the model list and zero every counter, with
the cursor starting at 0. -/
def init (modelsConfig : String) (pool : ApiKeyService.State) : State :=
  let models := initModels modelsConfig
  { apiKeyService := pool
    availableModels := models
    currentModelIndex := 0
    modelFailureCount := models.foldl (fun m mo => putAssoc m mo 0) []
    modelSuccessCount := models.foldl (fun m mo => putAssoc m mo 0) [] }

/-- sendWithSingleModel: acquire a key from the pool (failing with the
no-key message when null or blank), post to the upstream (oracle http keyed
by credential and model), retire the credential on HTTP 401 before building
the error, mark decommissioned-model bodies in the message, extract
choices[0].message.content from a success body (oracle extract, none when
parsing throws), and wrap in-call failures with the model name. -/
def sendWithSingleModel (extract : String → Option String)
    (http : String → String → HttpResponse) (specificModel : String)
    (pool : ApiKeyService.State) : Except String String × ApiKeyService.State :=
  let acq := ApiKeyService.getRotatedKey pool
  match acq.1 with
  | none => (.error "No valid API key available", acq.2)
  | some apiKey =>
    if javaTrim apiKey = "" then (.error "No valid API key available", acq.2)
    else
      match http apiKey specificModel with
      | .ok body =>
        match extract body with
        | some content => (.ok content, acq.2)
        | none =>
          (.error ("Failed to call Groq API with model " ++ specificModel ++
            ": Failed to parse API response"), acq.2)
      | .err status body =>
        let pool2 := if status == 401 then ApiKeyService.markKeyAsInvalid apiKey acq.2 else acq.2
        let errorMsg :=
          if javaContains body "model_decommissioned" || javaContains body "decommissioned" then
            "MODEL_DECOMMISSIONED: " ++ specificModel ++ " - " ++ body
          else "API Error: " ++ body
        (.error ("Failed to call Groq API with model " ++ specificModel ++ ": " ++ errorMsg),
         pool2)

/-- The aggregate exception raised when every model has failed in one call:
it embeds the full model list and the last underlying error message. -/
structure AggregateError where
  modelsTried : List String
  lastError : String
deriving DecidableEq, Repr

/-- What one iteration of the fallback loop decides: finish the call with a
result, or record the failure message and continue with the next model. -/
inductive StepOutcome where
  | finished (result : Except AggregateError String)
  | failedContinue (msg : String)

/-- Result of one iteration of the fallback loop, with the attempted model
and its outcome recorded as the trace event ev. -/
structure StepResult where
  outcome : StepOutcome
  state : State
  totalModelsTried : Nat
  ev : String × Except String String

/-- One iteration of the do-while body of sendWithModelFallback: try the
model under the cursor; on success bump its success counter and zero its
failure counter, returning the content with the cursor untouched; on failure
bump its failure counter, advance the cursor circularly, and finish with the
aggregate error when the cursor is back at the start index. -/
def fallbackStep (extract : String → Option String) (http : String → String → HttpResponse)
    (startIndex : Nat) (st : State) (totalModelsTried : Nat) : StepResult :=
  let currentModel := st.availableModels.getD st.currentModelIndex ""
  let tried := totalModelsTried + 1
  let att := sendWithSingleModel extract http currentModel st.apiKeyService
  match att.1 with
  | .ok response =>
    { outcome := .finished (.ok response)
      state := { st with
        apiKeyService := att.2
        modelSuccessCount :=
          putAssoc st.modelSuccessCount currentModel (getAssoc st.modelSuccessCount currentModel + 1)
        modelFailureCount := putAssoc st.modelFailureCount currentModel 0 }
      totalModelsTried := tried
      ev := (currentModel, .ok response) }
  | .error m =>
    let st' := { st with
      apiKeyService := att.2
      modelFailureCount :=
        putAssoc st.modelFailureCount currentModel (getAssoc st.modelFailureCount currentModel + 1)
      currentModelIndex := (st.currentModelIndex + 1) % st.availableModels.length }
    if st'.currentModelIndex == startIndex then
      { outcome := .finished (.error { modelsTried := st.availableModels, lastError := m })
        state := st'
        totalModelsTried := tried
        ev := (currentModel, .error m) }
    else
      { outcome := .failedContinue m
        state := st'
        totalModelsTried := tried
        ev := (currentModel, .error m) }

/-- Result of a full sendWithModelFallback call: the returned content or the
raised aggregate error, the state left behind, the final value of the
totalModelsTried counter, and the trace of attempts. -/
structure FallbackResult where
  result : Except AggregateError String
  state : State
  totalModelsTried : Nat
  trace : List (String × Except String String)

/-- The do-while loop of sendWithModelFallback.  The http oracle is indexed
by the attempt number.  The fuel counts the loop iterations still allowed by
the condition totalModelsTried < availableModels.length; exhausting it
raises the aggregate error with the recorded last error, exactly as falling
out of the loop does. -/
def fallbackGo (extract : String → Option String)
    (http : Nat → String → String → HttpResponse) (startIndex : Nat) :
    Nat → State → Nat → String → List (String × Except String String) → FallbackResult
  | 0, st, tried, lastError, acc =>
    { result := .error { modelsTried := st.availableModels, lastError := lastError }
      state := st, totalModelsTried := tried, trace := acc }
  | fuel + 1, st, tried, _lastError, acc =>
    let s := fallbackStep extract (http tried) startIndex st tried
    match s.outcome with
    | .finished r =>
      { result := r, state := s.state, totalModelsTried := s.totalModelsTried,
        trace := acc ++ [s.ev] }
    | .failedContinue m =>
      if s.totalModelsTried < st.availableModels.length then
        fallbackGo extract http startIndex fuel s.state s.totalModelsTried m (acc ++ [s.ev])
      else
        { result := .error { modelsTried := s.state.availableModels, lastError := m }
          state := s.state, totalModelsTried := s.totalModelsTried, trace := acc ++ [s.ev] }

/-- sendWithModelFallback: run the fallback loop starting at the current
cursor, with zero attempts so far and an empty last error. -/
def sendWithModelFallback (extract : String → Option String)
    (http : Nat → String → String → HttpResponse) (st : State) : FallbackResult :=
  fallbackGo extract http st.currentModelIndex st.availableModels.length st 0 "" []

end GroqService

/-! ### Association-list map lemmas -/

lemma getAssoc_putAssoc_self (l : List (String × Nat)) (k : String) (v : Nat) :
    getAssoc (putAssoc l k v) k = v := by
  induction l with
  | nil => simp [putAssoc, getAssoc]
  | cons e rest ih =>
    by_cases h : e.1 = k
    · simp [putAssoc, getAssoc, h]
    · simp [putAssoc, getAssoc, h, ih]

lemma getAssoc_putAssoc_ne (l : List (String × Nat)) (k : String) (v : Nat)
    (m : String) (h : m ≠ k) : getAssoc (putAssoc l k v) m = getAssoc l m := by
  induction l with
  | nil => simp [putAssoc, getAssoc, Ne.symm h]
  | cons e rest ih =>
    by_cases h1 : e.1 = k
    · simp [putAssoc, getAssoc, h1, Ne.symm h]
    · by_cases h2 : e.1 = m
      · simp [putAssoc, getAssoc, h1, h2, h]
      · simp [putAssoc, getAssoc, h1, h2, ih]

lemma bumpAssoc_keys (l : List (String × Nat)) (k : String) :
    (bumpAssoc l k).map Prod.fst = l.map Prod.fst := by
  unfold bumpAssoc
  rw [List.map_map]
  apply List.map_congr_left
  intro e _
  by_cases h : e.1 = k <;> simp [h]

lemma mem_keys_putAssoc {l : List (String × Nat)} {k m : String} {v : Nat}
    (h : m ∈ (putAssoc l k v).map Prod.fst) : m ∈ l.map Prod.fst ∨ m = k := by
  induction l with
  | nil =>
    right
    simpa [putAssoc] using h
  | cons e rest ih =>
    by_cases h1 : e.1 = k
    · rw [putAssoc, if_pos h1, List.map_cons, List.mem_cons] at h
      rcases h with h | h
      · right; exact h
      · left
        rw [List.map_cons, List.mem_cons]
        exact Or.inr h
    · rw [putAssoc, if_neg h1, List.map_cons, List.mem_cons] at h
      rcases h with h | h
      · left
        rw [List.map_cons, List.mem_cons]
        exact Or.inl h
      · rcases ih h with h2 | h2
        · left
          rw [List.map_cons, List.mem_cons]
          exact Or.inr h2
        · right; exact h2

lemma putAssoc_zero_counts {l : List (String × Nat)} (k : String)
    (h0 : ∀ e ∈ l, e.2 = 0) : ∀ e ∈ putAssoc l k 0, e.2 = 0 := by
  induction l with
  | nil =>
    intro e he
    rw [putAssoc, List.mem_singleton] at he
    simp [he]
  | cons a rest ih =>
    intro e he
    by_cases h1 : a.1 = k
    · rw [putAssoc, if_pos h1, List.mem_cons] at he
      rcases he with he | he
      · simp [he]
      · exact h0 e (List.mem_cons_of_mem a he)
    · rw [putAssoc, if_neg h1, List.mem_cons] at he
      rcases he with he | he
      · exact h0 e (by simp [he])
      · exact ih (fun f hf => h0 f (List.mem_cons_of_mem a hf)) e he

lemma putAssoc_zero_nodup {l : List (String × Nat)} (k : String)
    (hnd : (l.map Prod.fst).Nodup) : ((putAssoc l k 0).map Prod.fst).Nodup := by
  induction l with
  | nil => simp [putAssoc]
  | cons a rest ih =>
    rw [List.map_cons, List.nodup_cons] at hnd
    by_cases h1 : a.1 = k
    · rw [putAssoc, if_pos h1]
      simp only [List.map_cons, List.nodup_cons]
      exact ⟨h1 ▸ hnd.1, hnd.2⟩
    · rw [putAssoc, if_neg h1]
      simp only [List.map_cons, List.nodup_cons]
      refine ⟨?_, ih hnd.2⟩
      intro hmem
      rcases mem_keys_putAssoc hmem with h2 | h2
      · exact hnd.1 h2
      · exact h1 h2

/-! ### Least-used-entry lemmas (Stream.min with comparingInt) -/

namespace ApiKeyService

lemma minEntryAux_mem (b : String × Nat) (l : List (String × Nat)) :
    minEntryAux b l ∈ b :: l := by
  induction l generalizing b with
  | nil => simp [minEntryAux]
  | cons e rest ih =>
    rw [minEntryAux]
    have h := ih (if e.2 < b.2 then e else b)
    rcases List.mem_cons.mp h with h1 | h1
    · rw [h1]
      split
      · simp
      · simp
    · simp only [List.mem_cons] at h1 ⊢
      tauto

lemma minEntryAux_le (b : String × Nat) (l : List (String × Nat)) :
    (minEntryAux b l).2 ≤ b.2 ∧ ∀ e ∈ l, (minEntryAux b l).2 ≤ e.2 := by
  induction l generalizing b with
  | nil => exact ⟨Nat.le_refl _, by intro e he; cases he⟩
  | cons e rest ih =>
    rw [minEntryAux]
    have h := ih (if e.2 < b.2 then e else b)
    have hb : (if e.2 < b.2 then e else b).2 ≤ b.2 := by split <;> omega
    have he2 : (if e.2 < b.2 then e else b).2 ≤ e.2 := by split <;> omega
    refine ⟨le_trans h.1 hb, ?_⟩
    intro f hf
    rcases List.mem_cons.mp hf with rfl | hf2
    · exact le_trans h.1 he2
    · exact h.2 f hf2

lemma minByRequestCount_spec {l : List (String × Nat)} {k : String}
    (h : minByRequestCount l = some k) :
    ∃ c, (k, c) ∈ l ∧ ∀ e ∈ l, c ≤ e.2 := by
  cases l with
  | nil => simp [minByRequestCount] at h
  | cons e rest =>
    rw [minByRequestCount, Option.some.injEq] at h
    refine ⟨(minEntryAux e rest).2, ?_, ?_⟩
    · have hm := minEntryAux_mem e rest
      rw [← h]
      simpa using hm
    · intro f hf
      have hle := minEntryAux_le e rest
      rcases List.mem_cons.mp hf with rfl | hf2
      · exact hle.1
      · exact hle.2 f hf2

/-! ### getRotatedKey structure lemmas -/

lemma getRotatedKey_availableKeys (st : State) :
    (getRotatedKey st).2.availableKeys = st.availableKeys := by
  unfold getRotatedKey
  split
  · rfl
  · split <;> rfl

lemma getRotatedKey_tracker_keys (st : State) :
    (getRotatedKey st).2.keyUsageTracker.map Prod.fst
      = st.keyUsageTracker.map Prod.fst := by
  unfold getRotatedKey
  split
  · rfl
  · split
    · simp [bumpAssoc_keys]
    · rfl

lemma getRotatedKey_some {st : State} {k : String}
    (h : (getRotatedKey st).1 = some k) :
    k ∈ st.keyUsageTracker.map Prod.fst ∨ k ∈ st.availableKeys := by
  unfold getRotatedKey at h
  split at h
  · simp at h
  · split at h
    · rename_i leastUsedKey heq
      simp only [Option.some.injEq] at h
      subst h
      obtain ⟨c, hc, -⟩ := minByRequestCount_spec heq
      exact Or.inl (List.mem_map.mpr ⟨(leastUsedKey, c), hc, rfl⟩)
    · exact Or.inr (List.mem_of_mem_head? (Option.mem_def.mpr h))

/-! ### Retirement permanence machinery -/

/-- The credential is gone from the pool: absent from the key list and from
the usage tracker. -/
def KeyAbsent (c : String) (st : State) : Prop :=
  c ∉ st.availableKeys ∧ c ∉ st.keyUsageTracker.map Prod.fst

lemma keyAbsent_markKeyAsInvalid (c : String) (st : State)
    (hcount : st.availableKeys.count c ≤ 1) :
    KeyAbsent c (markKeyAsInvalid c st) := by
  constructor
  · intro hmem
    have h1 : 0 < (st.availableKeys.erase c).count c := List.count_pos_iff.mpr hmem
    rw [List.count_erase_self] at h1
    omega
  · intro hmem
    rw [List.mem_map] at hmem
    obtain ⟨e, he, hfst⟩ := hmem
    have h2 := (List.mem_filter.mp he).2
    rw [hfst] at h2
    simp at h2

lemma keyAbsent_markKeyAsInvalid_other {c : String} {st : State} (k : String)
    (h : KeyAbsent c st) : KeyAbsent c (markKeyAsInvalid k st) := by
  constructor
  · intro hm
    exact h.1 (List.mem_of_mem_erase hm)
  · intro hm
    rw [List.mem_map] at hm
    obtain ⟨e, he, hf⟩ := hm
    have h2 := (List.mem_filter.mp he).1
    exact h.2 (List.mem_map.mpr ⟨e, h2, hf⟩)

lemma keyAbsent_getRotatedKey {c : String} {st : State} (h : KeyAbsent c st) :
    (getRotatedKey st).1 ≠ some c ∧ KeyAbsent c (getRotatedKey st).2 := by
  refine ⟨?_, ?_, ?_⟩
  · intro hc
    rcases getRotatedKey_some hc with h1 | h1
    · exact h.2 h1
    · exact h.1 h1
  · rw [getRotatedKey_availableKeys]
    exact h.1
  · rw [getRotatedKey_tracker_keys]
    exact h.2

lemma runPoolOps_no_absent (c : String) :
    ∀ (ops : List PoolOp) (st : State), KeyAbsent c st →
      ∀ r ∈ (runPoolOps ops st).2, r ≠ some c := by
  intro ops
  induction ops with
  | nil =>
    intro st _ r hr
    simp [runPoolOps] at hr
  | cons op rest ih =>
    intro st h r hr
    cases op with
    | acquire =>
      rw [runPoolOps] at hr
      simp only [List.mem_cons] at hr
      rcases hr with rfl | hr2
      · exact (keyAbsent_getRotatedKey h).1
      · exact ih _ (keyAbsent_getRotatedKey h).2 r hr2
    | retire k =>
      rw [runPoolOps] at hr
      exact ih _ (keyAbsent_markKeyAsInvalid_other k h) r hr

/-! ### Load-spreading machinery -/

/-- All counters in the list are within 1 of each other. -/
def SpreadLe1 (l : List Nat) : Prop := ∀ a ∈ l, ∀ b ∈ l, a ≤ b + 1

lemma nodup_key_val {l : List (String × Nat)} (hnd : (l.map Prod.fst).Nodup)
    {k : String} {c : Nat} (hm : (k, c) ∈ l) {e : String × Nat} (he : e ∈ l)
    (hk : e.1 = k) : e = (k, c) := by
  induction l with
  | nil => cases hm
  | cons a rest ih =>
    rw [List.map_cons, List.nodup_cons] at hnd
    rcases List.mem_cons.mp hm with h1 | h1
    · rcases List.mem_cons.mp he with h2 | h2
      · rw [h2, ← h1]
      · exfalso
        apply hnd.1
        have ha : a.1 = k := by rw [← h1]
        rw [ha]
        exact List.mem_map.mpr ⟨e, h2, hk⟩
    · rcases List.mem_cons.mp he with h2 | h2
      · exfalso
        apply hnd.1
        have ha : a.1 = k := by rw [← h2]; exact hk
        rw [ha]
        exact List.mem_map.mpr ⟨(k, c), h1, rfl⟩
      · exact ih hnd.2 h1 h2

lemma spread_bumpAssoc {l : List (String × Nat)} {k : String} {c : Nat}
    (hnd : (l.map Prod.fst).Nodup)
    (hmem : (k, c) ∈ l) (hmin : ∀ e ∈ l, c ≤ e.2)
    (hsp : SpreadLe1 (l.map Prod.snd)) :
    SpreadLe1 ((bumpAssoc l k).map Prod.snd) := by
  intro a ha b hb
  rw [bumpAssoc, List.map_map, List.mem_map] at ha hb
  obtain ⟨ea, hea, hva⟩ := ha
  obtain ⟨eb, heb, hvb⟩ := hb
  have hamem : ea.2 ∈ l.map Prod.snd := List.mem_map.mpr ⟨ea, hea, rfl⟩
  have hbmem : eb.2 ∈ l.map Prod.snd := List.mem_map.mpr ⟨eb, heb, rfl⟩
  have hcmem : c ∈ l.map Prod.snd := List.mem_map.mpr ⟨(k, c), hmem, rfl⟩
  by_cases h1 : ea.1 = k
  · have hea2 : ea = (k, c) := nodup_key_val hnd hmem hea h1
    have hva2 : a = c + 1 := by rw [← hva]; simp [Function.comp, h1, hea2]
    by_cases h2 : eb.1 = k
    · have heb2 : eb = (k, c) := nodup_key_val hnd hmem heb h2
      have hvb2 : b = c + 1 := by rw [← hvb]; simp [Function.comp, h2, heb2]
      omega
    · have hvb2 : b = eb.2 := by rw [← hvb]; simp [Function.comp, h2]
      have h3 := hmin eb heb
      omega
  · have hva2 : a = ea.2 := by rw [← hva]; simp [Function.comp, h1]
    by_cases h2 : eb.1 = k
    · have heb2 : eb = (k, c) := nodup_key_val hnd hmem heb h2
      have hvb2 : b = c + 1 := by rw [← hvb]; simp [Function.comp, h2, heb2]
      have h3 := hsp ea.2 hamem c hcmem
      omega
    · have hvb2 : b = eb.2 := by rw [← hvb]; simp [Function.comp, h2]
      have h3 := hsp ea.2 hamem eb.2 hbmem
      omega

lemma spread_getRotatedKey {st : State} (hnd : (st.keyUsageTracker.map Prod.fst).Nodup)
    (hsp : SpreadLe1 (trackerCounts st)) :
    ((getRotatedKey st).2.keyUsageTracker.map Prod.fst).Nodup ∧
    SpreadLe1 (trackerCounts (getRotatedKey st).2) := by
  refine ⟨by rw [getRotatedKey_tracker_keys]; exact hnd, ?_⟩
  unfold getRotatedKey
  split
  · exact hsp
  · split
    · rename_i k heq
      obtain ⟨c, hmem, hmin⟩ := minByRequestCount_spec heq
      simpa [trackerCounts] using spread_bumpAssoc hnd hmem hmin hsp
    · exact hsp

lemma spread_acquireIter (M : Nat) :
    ∀ st : State, (st.keyUsageTracker.map Prod.fst).Nodup →
      SpreadLe1 (trackerCounts st) →
      SpreadLe1 (trackerCounts (acquireIter M st)) := by
  induction M with
  | zero => intro st _ hsp; exact hsp
  | succ m ih =>
    intro st hnd hsp
    rw [acquireIter]
    have h := spread_getRotatedKey hnd hsp
    exact ih _ h.1 h.2

/-! ### init structure lemmas -/

lemma processKey_tracker_inv (aes b64 : String → Option String) (st : State) (r : String)
    (h0 : ∀ e ∈ st.keyUsageTracker, e.2 = 0)
    (hnd : (st.keyUsageTracker.map Prod.fst).Nodup) :
    (∀ e ∈ (processKey aes b64 st r).keyUsageTracker, e.2 = 0) ∧
    ((processKey aes b64 st r).keyUsageTracker.map Prod.fst).Nodup := by
  unfold processKey
  split
  · exact ⟨h0, hnd⟩
  · dsimp only
    split
    · exact ⟨h0, hnd⟩
    · split
      · exact ⟨putAssoc_zero_counts _ h0, putAssoc_zero_nodup _ hnd⟩
      · exact ⟨h0, hnd⟩

lemma foldl_processKey_tracker_inv (aes b64 : String → Option String) (raws : List String) :
    ∀ st : State, (∀ e ∈ st.keyUsageTracker, e.2 = 0) →
      (st.keyUsageTracker.map Prod.fst).Nodup →
      (∀ e ∈ (raws.foldl (processKey aes b64) st).keyUsageTracker, e.2 = 0) ∧
      ((raws.foldl (processKey aes b64) st).keyUsageTracker.map Prod.fst).Nodup := by
  induction raws with
  | nil => intro st h0 hnd; exact ⟨h0, hnd⟩
  | cons r rest ih =>
    intro st h0 hnd
    rw [List.foldl_cons]
    have h := processKey_tracker_inv aes b64 st r h0 hnd
    exact ih _ h.1 h.2

lemma processKey_availableKeys (aes b64 : String → Option String) (st : State) (r : String) :
    (processKey aes b64 st r).availableKeys
      = st.availableKeys ++ (resolveKey aes b64 r).toList := by
  by_cases h1 : javaTrim r = ""
  · simp [processKey, resolveKey, h1]
  · cases hdec : (if isProbablyEncrypted (fun s => (b64 s).isSome) (javaTrim r)
        then decryptApiKey aes b64 (javaTrim r) else some (javaTrim r)) with
    | none => simp [processKey, resolveKey, h1, hdec]
    | some d =>
      by_cases h2 : isValidGroqKey d
      · simp [processKey, resolveKey, h1, hdec, h2]
      · simp [processKey, resolveKey, h1, hdec, h2]

lemma foldl_processKey_availableKeys (aes b64 : String → Option String) (raws : List String) :
    ∀ st : State, (raws.foldl (processKey aes b64) st).availableKeys
      = st.availableKeys ++ raws.filterMap (resolveKey aes b64) := by
  induction raws with
  | nil => intro st; simp
  | cons r rest ih =>
    intro st
    rw [List.foldl_cons, ih, processKey_availableKeys, List.filterMap_cons]
    cases resolveKey aes b64 r <;> simp

lemma getRotatedKey_empty {st : State} (h : st.availableKeys = []) :
    getRotatedKey st = (none, st) := by
  unfold getRotatedKey
  rw [h]
  simp

/-! ### Plain-key identity lemmas -/

lemma isAsciiLetterOrDigit_not_space {c : Char} (h : isAsciiLetterOrDigit c = true) :
    isJavaSpace c = false := by
  unfold isAsciiLetterOrDigit at h
  unfold isJavaSpace
  simp only [Bool.or_eq_true, Bool.and_eq_true, decide_eq_true_eq] at h
  simp only [decide_eq_false_iff_not]
  omega

lemma trimList_of_no_space {l : List Char} (h : ∀ c ∈ l, isJavaSpace c = false) :
    trimList l = l := by
  have h1 : l.dropWhile isJavaSpace = l := by
    cases l with
    | nil => rfl
    | cons c rest =>
      rw [List.dropWhile_cons, if_neg (by simp [h c (List.mem_cons_self c rest)])]
  unfold trimList
  rw [h1]
  have h2 : l.reverse.dropWhile isJavaSpace = l.reverse := by
    cases hrev : l.reverse with
    | nil => rfl
    | cons c rest =>
      have hc : c ∈ l := by
        rw [← List.mem_reverse, hrev]
        exact List.mem_cons_self c rest
      rw [List.dropWhile_cons, if_neg (by simp [h c hc])]
  rw [h2, List.reverse_reverse]

lemma valid_key_shape {r : String} (hv : isValidGroqKey r = true) :
    ∃ rest, r.data = 'g' :: 's' :: 'k' :: '_' :: rest ∧ rest.isEmpty = false ∧
      rest.all isAsciiLetterOrDigit = true ∧ 40 ≤ r.length := by
  unfold isValidGroqKey at hv
  simp only [Bool.and_eq_true, decide_eq_true_eq] at hv
  obtain ⟨⟨hlen, -⟩, hpat⟩ := hv
  unfold groqKeyPattern at hpat
  split at hpat
  · rename_i rest heq
    refine ⟨rest, heq, ?_, ?_, hlen⟩
    · rcases Bool.and_eq_true .. |>.mp hpat with ⟨h1, -⟩
      simpa using h1
    · exact (Bool.and_eq_true .. |>.mp hpat).2
  · cases hpat

lemma valid_key_no_space {r : String} (hv : isValidGroqKey r = true) :
    ∀ c ∈ r.data, isJavaSpace c = false := by
  obtain ⟨rest, heq, -, hall, -⟩ := valid_key_shape hv
  intro c hc
  rw [heq] at hc
  simp only [List.mem_cons] at hc
  rcases hc with rfl | rfl | rfl | rfl | hc
  · decide
  · decide
  · decide
  · decide
  · exact isAsciiLetterOrDigit_not_space (List.all_eq_true.mp hall c hc)

lemma javaTrim_valid {r : String} (hv : isValidGroqKey r = true) : javaTrim r = r := by
  unfold javaTrim
  rw [trimList_of_no_space (valid_key_no_space hv)]

lemma matchesBase64Regex_gsk {r : String} {rest : List Char}
    (heq : r.data = 'g' :: 's' :: 'k' :: '_' :: rest) :
    matchesBase64Regex r = false := by
  have hg : isBase64Char 'g' = true := by decide
  have hs : isBase64Char 's' = true := by decide
  have hk : isBase64Char 'k' = true := by decide
  have hu : isBase64Char '_' = false := by decide
  have he : ('_' == '=') = false := by decide
  unfold matchesBase64Regex
  rw [heq]
  simp [List.takeWhile_cons, List.dropWhile_cons, hg, hs, hk, hu, List.all_cons, he]

lemma isProbablyEncrypted_gsk (b64ok : String → Bool) {r : String} {rest : List Char}
    (heq : r.data = 'g' :: 's' :: 'k' :: '_' :: rest) :
    isProbablyEncrypted b64ok r = false := by
  unfold isProbablyEncrypted
  rw [matchesBase64Regex_gsk heq]
  simp

lemma resolveKey_valid (aes b64 : String → Option String) {r : String}
    (hv : isValidGroqKey r = true) : resolveKey aes b64 r = some r := by
  obtain ⟨rest, heq, -, -, hlen⟩ := valid_key_shape hv
  have htrim : javaTrim r = r := javaTrim_valid hv
  have hne : javaTrim r ≠ "" := by
    rw [htrim]
    intro h0
    rw [h0] at hlen
    simp [String.length] at hlen
  unfold resolveKey
  rw [if_neg hne]
  dsimp only
  rw [htrim, isProbablyEncrypted_gsk _ heq]
  simp [hv]

end ApiKeyService

namespace GroqService

/-! ### Single-model attempt lemmas -/

lemma sendWithSingleModel_err (extract : String → Option String)
    (http : String → String → HttpResponse) (model : String)
    (pool : ApiKeyService.State)
    (h : ∀ k m, (http k m).isErr = true) :
    ∃ msg, (sendWithSingleModel extract http model pool).1 = Except.error msg := by
  unfold sendWithSingleModel
  dsimp only
  cases hacq : (ApiKeyService.getRotatedKey pool).1 with
  | none =>
    simp only [hacq]
    exact ⟨_, rfl⟩
  | some apiKey =>
    simp only [hacq]
    by_cases htr : javaTrim apiKey = ""
    · rw [if_pos htr]
      exact ⟨_, rfl⟩
    · rw [if_neg htr]
      cases hresp : http apiKey model with
      | ok body =>
        have hx := h apiKey model
        rw [hresp] at hx
        simp [HttpResponse.isErr] at hx
      | err status body =>
        simp only [hresp]
        exact ⟨_, rfl⟩

lemma sendWithSingleModel_401 (extract : String → Option String)
    (http : String → String → HttpResponse) (model : String)
    (pool : ApiKeyService.State) {k : String} {pool1 : ApiKeyService.State} {body : String}
    (hacq : ApiKeyService.getRotatedKey pool = (some k, pool1))
    (htrim : javaTrim k ≠ "")
    (hhttp : http k model = .err 401 body) :
    (sendWithSingleModel extract http model pool).2
      = ApiKeyService.markKeyAsInvalid k pool1 ∧
    ∃ m, (sendWithSingleModel extract http model pool).1 = Except.error m := by
  unfold sendWithSingleModel
  rw [hacq]
  dsimp only
  rw [if_neg htrim, hhttp]
  dsimp only
  constructor
  · simp
  · exact ⟨_, rfl⟩

/-! ### Fallback-loop step lemmas -/

lemma fallbackStep_error_stop (extract : String → Option String)
    (http : String → String → HttpResponse) (startIndex : Nat) (st : State)
    (tried : Nat) {m : String}
    (hm : (sendWithSingleModel extract http (st.availableModels.getD st.currentModelIndex "")
        st.apiKeyService).1 = Except.error m)
    (hbeq : (((st.currentModelIndex + 1) % st.availableModels.length) == startIndex) = true) :
    ∃ st' : State,
      fallbackStep extract http startIndex st tried =
        { outcome := .finished (.error { modelsTried := st.availableModels, lastError := m })
          state := st'
          totalModelsTried := tried + 1
          ev := (st.availableModels.getD st.currentModelIndex "", Except.error m) } ∧
      st'.availableModels = st.availableModels ∧
      st'.currentModelIndex = (st.currentModelIndex + 1) % st.availableModels.length := by
  refine ⟨{ st with
    apiKeyService := (sendWithSingleModel extract http
      (st.availableModels.getD st.currentModelIndex "") st.apiKeyService).2
    modelFailureCount := putAssoc st.modelFailureCount
      (st.availableModels.getD st.currentModelIndex "")
      (getAssoc st.modelFailureCount (st.availableModels.getD st.currentModelIndex "") + 1)
    currentModelIndex := (st.currentModelIndex + 1) % st.availableModels.length },
    ?_, rfl, rfl⟩
  unfold fallbackStep
  dsimp only
  rw [hm]
  dsimp only
  rw [if_pos hbeq]

lemma fallbackStep_error_continue (extract : String → Option String)
    (http : String → String → HttpResponse) (startIndex : Nat) (st : State)
    (tried : Nat) {m : String}
    (hm : (sendWithSingleModel extract http (st.availableModels.getD st.currentModelIndex "")
        st.apiKeyService).1 = Except.error m)
    (hbeq : (((st.currentModelIndex + 1) % st.availableModels.length) == startIndex) = false) :
    ∃ st' : State,
      fallbackStep extract http startIndex st tried =
        { outcome := .failedContinue m
          state := st'
          totalModelsTried := tried + 1
          ev := (st.availableModels.getD st.currentModelIndex "", Except.error m) } ∧
      st'.availableModels = st.availableModels ∧
      st'.currentModelIndex = (st.currentModelIndex + 1) % st.availableModels.length := by
  refine ⟨{ st with
    apiKeyService := (sendWithSingleModel extract http
      (st.availableModels.getD st.currentModelIndex "") st.apiKeyService).2
    modelFailureCount := putAssoc st.modelFailureCount
      (st.availableModels.getD st.currentModelIndex "")
      (getAssoc st.modelFailureCount (st.availableModels.getD st.currentModelIndex "") + 1)
    currentModelIndex := (st.currentModelIndex + 1) % st.availableModels.length },
    ?_, rfl, rfl⟩
  unfold fallbackStep
  dsimp only
  rw [hm]
  dsimp only
  rw [if_neg (by simp [hbeq])]

lemma fallbackStep_error_state (extract : String → Option String)
    (http : String → String → HttpResponse) (startIndex : Nat) (st : State)
    (tried : Nat) {m : String}
    (hm : (sendWithSingleModel extract http (st.availableModels.getD st.currentModelIndex "")
        st.apiKeyService).1 = Except.error m) :
    (fallbackStep extract http startIndex st tried).state.apiKeyService
      = (sendWithSingleModel extract http
          (st.availableModels.getD st.currentModelIndex "") st.apiKeyService).2 ∧
    (fallbackStep extract http startIndex st tried).state.availableModels
      = st.availableModels ∧
    (fallbackStep extract http startIndex st tried).state.currentModelIndex
      = (st.currentModelIndex + 1) % st.availableModels.length ∧
    (fallbackStep extract http startIndex st tried).state.modelFailureCount
      = putAssoc st.modelFailureCount (st.availableModels.getD st.currentModelIndex "")
          (getAssoc st.modelFailureCount (st.availableModels.getD st.currentModelIndex "") + 1) ∧
    (fallbackStep extract http startIndex st tried).ev
      = (st.availableModels.getD st.currentModelIndex "", Except.error m) ∧
    (fallbackStep extract http startIndex st tried).totalModelsTried = tried + 1 := by
  unfold fallbackStep
  dsimp only
  rw [hm]
  dsimp only
  split <;> exact ⟨rfl, rfl, rfl, rfl, rfl, rfl⟩

lemma fallbackStep_ok_parts (extract : String → Option String)
    (http : String → String → HttpResponse) (startIndex : Nat) (st : State)
    (tried : Nat) {c : String}
    (hm : (sendWithSingleModel extract http (st.availableModels.getD st.currentModelIndex "")
        st.apiKeyService).1 = Except.ok c) :
    ∃ st' : State,
      fallbackStep extract http startIndex st tried =
        { outcome := .finished (.ok c)
          state := st'
          totalModelsTried := tried + 1
          ev := (st.availableModels.getD st.currentModelIndex "", Except.ok c) } ∧
      st'.apiKeyService = (sendWithSingleModel extract http
        (st.availableModels.getD st.currentModelIndex "") st.apiKeyService).2 ∧
      st'.availableModels = st.availableModels ∧
      st'.currentModelIndex = st.currentModelIndex ∧
      st'.modelSuccessCount = putAssoc st.modelSuccessCount
        (st.availableModels.getD st.currentModelIndex "")
        (getAssoc st.modelSuccessCount (st.availableModels.getD st.currentModelIndex "") + 1) ∧
      st'.modelFailureCount = putAssoc st.modelFailureCount
        (st.availableModels.getD st.currentModelIndex "") 0 := by
  refine ⟨{ st with
    apiKeyService := (sendWithSingleModel extract http
      (st.availableModels.getD st.currentModelIndex "") st.apiKeyService).2
    modelSuccessCount := putAssoc st.modelSuccessCount
      (st.availableModels.getD st.currentModelIndex "")
      (getAssoc st.modelSuccessCount (st.availableModels.getD st.currentModelIndex "") + 1)
    modelFailureCount := putAssoc st.modelFailureCount
      (st.availableModels.getD st.currentModelIndex "") 0 },
    ?_, rfl, rfl, rfl, rfl, rfl⟩
  unfold fallbackStep
  dsimp only
  rw [hm]

lemma fallbackStep_ev_fst (extract : String → Option String)
    (http : String → String → HttpResponse) (startIndex : Nat) (st : State) (tried : Nat) :
    (fallbackStep extract http startIndex st tried).ev.1
      = st.availableModels.getD st.currentModelIndex "" := by
  unfold fallbackStep
  dsimp only
  cases hm : (sendWithSingleModel extract http (st.availableModels.getD st.currentModelIndex "")
      st.apiKeyService).1 with
  | ok c => rfl
  | error m =>
    dsimp only
    split <;> rfl

/-! ### Fallback-loop lemmas -/

lemma fallbackGo_trace_prefix (extract : String → Option String)
    (http : Nat → String → String → HttpResponse) (si : Nat) :
    ∀ (fuel : Nat) (st : State) (tried : Nat) (le : String)
      (acc : List (String × Except String String)),
      ∃ t, (fallbackGo extract http si fuel st tried le acc).trace = acc ++ t := by
  intro fuel
  induction fuel with
  | zero =>
    intro st tried le acc
    exact ⟨[], by simp [fallbackGo]⟩
  | succ f ih =>
    intro st tried le acc
    simp only [fallbackGo]
    cases hs : (fallbackStep extract (http tried) si st tried).outcome with
    | finished r =>
      dsimp only
      exact ⟨_, rfl⟩
    | failedContinue m =>
      dsimp only
      split
      · obtain ⟨t, ht⟩ := ih (fallbackStep extract (http tried) si st tried).state
          (fallbackStep extract (http tried) si st tried).totalModelsTried m
          (acc ++ [(fallbackStep extract (http tried) si st tried).ev])
        exact ⟨_, by rw [ht, List.append_assoc]⟩
      · exact ⟨_, rfl⟩

lemma sendWithModelFallback_first_model (extract : String → Option String)
    (http : Nat → String → String → HttpResponse) (st : State)
    (h : st.availableModels.length ≠ 0) :
    ((sendWithModelFallback extract http st).trace.head?).map Prod.fst
      = some (st.availableModels.getD st.currentModelIndex "") := by
  cases hK : st.availableModels.length with
  | zero => exact absurd hK h
  | succ f =>
    unfold sendWithModelFallback
    rw [hK]
    simp only [fallbackGo]
    cases hs : (fallbackStep extract (http 0) st.currentModelIndex st 0).outcome with
    | finished r =>
      dsimp only
      simp only [List.nil_append, List.head?_cons, Option.map_some']
      rw [fallbackStep_ev_fst]
    | failedContinue m =>
      dsimp only
      split
      · obtain ⟨t, ht⟩ := fallbackGo_trace_prefix extract http st.currentModelIndex f
          (fallbackStep extract (http 0) st.currentModelIndex st 0).state
          (fallbackStep extract (http 0) st.currentModelIndex st 0).totalModelsTried m
          ([] ++ [(fallbackStep extract (http 0) st.currentModelIndex st 0).ev])
        rw [ht]
        simp only [List.nil_append, List.cons_append, List.head?_cons, Option.map_some']
        rw [fallbackStep_ev_fst]
      · simp only [List.nil_append, List.head?_cons, Option.map_some']
        rw [fallbackStep_ev_fst]

lemma cursor_wrap {K s t : Nat} (hs : s < K) (ht : t + 1 ≤ K) :
    ((s + t + 1) % K = s) ↔ (t + 1 = K) := by
  constructor
  · intro h
    by_cases h1 : t + 1 = K
    · exact h1
    · exfalso
      have h2 : t + 1 < K := by omega
      rcases Nat.lt_or_ge (s + t + 1) K with h3 | h3
      · rw [Nat.mod_eq_of_lt h3] at h
        omega
      · rw [Nat.mod_eq_sub_mod h3, Nat.mod_eq_of_lt (by omega)] at h
        omega
  · intro h
    have h2 : s + t + 1 = s + K := by omega
    rw [h2, Nat.add_mod_right, Nat.mod_eq_of_lt hs]

lemma allfail_go (extract : String → Option String)
    (http : Nat → String → String → HttpResponse)
    (hhttp : ∀ n k m, (http n k m).isErr = true) (K start : Nat) (hs : start < K) :
    ∀ (fuel : Nat) (st : State) (tried : Nat) (le : String)
      (acc : List (String × Except String String)),
      st.availableModels.length = K →
      st.currentModelIndex = (start + tried) % K →
      fuel + tried = K → tried < K →
      (fallbackGo extract http start fuel st tried le acc).totalModelsTried = K ∧
      (fallbackGo extract http start fuel st tried le acc).trace.length
        = acc.length + (K - tried) ∧
      (fallbackGo extract http start fuel st tried le acc).state.availableModels
        = st.availableModels ∧
      ∃ msg mdl,
        (fallbackGo extract http start fuel st tried le acc).result
          = Except.error { modelsTried := st.availableModels, lastError := msg } ∧
        (fallbackGo extract http start fuel st tried le acc).trace.getLast?
          = some (mdl, Except.error msg) := by
  intro fuel
  induction fuel with
  | zero =>
    intro st tried le acc hK hcur hfuel htried
    exfalso
    omega
  | succ f ih =>
    intro st tried le acc hK hcur hfuel htried
    obtain ⟨m, hm⟩ := sendWithSingleModel_err extract (http tried)
      (st.availableModels.getD st.currentModelIndex "") st.apiKeyService
      (fun k mo => hhttp tried k mo)
    have hnext : (st.currentModelIndex + 1) % st.availableModels.length
        = (start + tried + 1) % K := by
      rw [hK, hcur, Nat.mod_add_mod]
    simp only [fallbackGo]
    by_cases hstop : tried + 1 = K
    · have hbeq : (((st.currentModelIndex + 1) % st.availableModels.length) == start) = true := by
        rw [hnext, beq_iff_eq]
        exact (cursor_wrap hs (by omega)).mpr hstop
      obtain ⟨st', hstep, hmodels, hcur2⟩ :=
        fallbackStep_error_stop extract (http tried) start st tried hm hbeq
      rw [hstep]
      dsimp only
      refine ⟨by omega, ?_, hmodels, m,
        st.availableModels.getD st.currentModelIndex "", rfl, List.getLast?_concat _⟩
      rw [List.length_append]
      simp only [List.length_singleton]
      omega
    · have hbeq : (((st.currentModelIndex + 1) % st.availableModels.length) == start) = false := by
        rw [hnext, beq_eq_false_iff_ne]
        intro hcontra
        exact hstop ((cursor_wrap hs (by omega)).mp hcontra)
      obtain ⟨st', hstep, hmodels, hcur2⟩ :=
        fallbackStep_error_continue extract (http tried) start st tried hm hbeq
      rw [hstep]
      dsimp only
      have hguard : tried + 1 < st.availableModels.length := by omega
      rw [if_pos hguard]
      have hK2 : st'.availableModels.length = K := by rw [hmodels]; exact hK
      have hcur3 : st'.currentModelIndex = (start + (tried + 1)) % K := by
        rw [hcur2, hnext, Nat.add_assoc]
      obtain ⟨h1, h2, h3, msg, mdl2, h4, h5⟩ := ih st' (tried + 1) m
        (acc ++ [(st.availableModels.getD st.currentModelIndex "", Except.error m)])
        hK2 hcur3 (by omega) (by omega)
      refine ⟨h1, ?_, ?_, msg, mdl2, ?_, h5⟩
      · rw [h2, List.length_append]
        simp only [List.length_singleton]
        omega
      · rw [h3, hmodels]
      · rw [h4, hmodels]

end GroqService

end LegalSwami

open LegalSwami

/-- A syntactically valid Groq credential used in concrete scenarios. -/
def sampleKey : String := "gsk_aaaaaaaaaaaaaaaaaaaaaaaaaaaaaaaaaaaa"

/-- A second valid credential, distinct from sampleKey. -/
def sampleKeyB : String := "gsk_aaaaaaaaaaaaaaaaaaaaaaaaaaaaaaaaaaab"

/-- Oracle for a cipher and a decoder that always throw. -/
def noOracle : String → Option String := fun _ => none

/-- A fresh two-credential pool used in concrete scenarios. -/
def twoKeyPool : ApiKeyService.State :=
  { availableKeys := [sampleKey, sampleKeyB],
    keyUsageTracker := [(sampleKey, 0), (sampleKeyB, 0)] }

/-- C2: for every pool produced by init (all counters zero) and every number
M of sequential getRotatedKey calls with no retirements, any two usage
counters differ by at most 1 after the calls, because getRotatedKey returns
a credential with the lowest usage counter and increments that counter
within the same synchronized operation. -/
theorem claim2_load_spreading (aes b64 : String → Option String)
    (singleApiKey : Option String) (rawKeys : List String) (envApiKey : Option String)
    (envApiKeys : List String) (numberedKeys : List (Option String)) (M : Nat) :
    ∀ a ∈ ApiKeyService.trackerCounts (ApiKeyService.acquireIter M
        (ApiKeyService.init aes b64 singleApiKey rawKeys envApiKey envApiKeys numberedKeys)),
      ∀ b ∈ ApiKeyService.trackerCounts (ApiKeyService.acquireIter M
        (ApiKeyService.init aes b64 singleApiKey rawKeys envApiKey envApiKeys numberedKeys)),
        a ≤ b + 1 := by
  have hinv := ApiKeyService.foldl_processKey_tracker_inv aes b64
    (ApiKeyService.collectRawKeys singleApiKey rawKeys envApiKey envApiKeys numberedKeys)
    { availableKeys := [], keyUsageTracker := [] }
    (by intro e he; cases he) (by simp)
  have hsp0 : ApiKeyService.SpreadLe1 (ApiKeyService.trackerCounts
      (ApiKeyService.init aes b64 singleApiKey rawKeys envApiKey envApiKeys numberedKeys)) := by
    intro a ha b hb
    rw [ApiKeyService.trackerCounts, List.mem_map] at ha
    obtain ⟨e, he, hv⟩ := ha
    have h0 : e.2 = 0 := hinv.1 e he
    omega
  exact ApiKeyService.spread_acquireIter M _ hinv.2 hsp0

/-- C2 witness: two credentials, three acquisitions, final counters 2 and 1. -/
theorem claim2_witness :
    2 ∈ ApiKeyService.trackerCounts (ApiKeyService.acquireIter 3
        (ApiKeyService.init noOracle noOracle (some sampleKey) [sampleKeyB] none [] [])) ∧
    1 ∈ ApiKeyService.trackerCounts (ApiKeyService.acquireIter 3
        (ApiKeyService.init noOracle noOracle (some sampleKey) [sampleKeyB] none [] [])) ∧
    2 ≤ 1 + 1 :=
  ⟨by decide, by decide,
   claim2_load_spreading noOracle noOracle (some sampleKey) [sampleKeyB] none [] [] 3
     2 (by decide) 1 (by decide)⟩

/-- C3: init never raises: it always returns a state whose pool holds
exactly the raw values that resolve to a syntactically valid credential
(unresolvable values are discarded), and when no valid credential results
the pool is left empty, reports not ready, and getRotatedKey signals the
empty pool with none instead of raising. -/
theorem claim3_init_fail_soft (aes b64 : String → Option String)
    (singleApiKey : Option String) (rawKeys : List String) (envApiKey : Option String)
    (envApiKeys : List String) (numberedKeys : List (Option String)) :
    (ApiKeyService.init aes b64 singleApiKey rawKeys envApiKey envApiKeys
        numberedKeys).availableKeys
      = (ApiKeyService.collectRawKeys singleApiKey rawKeys envApiKey envApiKeys
          numberedKeys).filterMap (ApiKeyService.resolveKey aes b64) ∧
    ((ApiKeyService.init aes b64 singleApiKey rawKeys envApiKey envApiKeys
        numberedKeys).availableKeys = [] →
      ApiKeyService.hasApiKeys (ApiKeyService.init aes b64 singleApiKey rawKeys envApiKey
        envApiKeys numberedKeys) = false ∧
      ApiKeyService.getRotatedKey (ApiKeyService.init aes b64 singleApiKey rawKeys envApiKey
          envApiKeys numberedKeys)
        = (none, ApiKeyService.init aes b64 singleApiKey rawKeys envApiKey envApiKeys
            numberedKeys)) := by
  refine ⟨?_, ?_⟩
  · simpa using ApiKeyService.foldl_processKey_availableKeys aes b64
      (ApiKeyService.collectRawKeys singleApiKey rawKeys envApiKey envApiKeys numberedKeys)
      { availableKeys := [], keyUsageTracker := [] }
  · intro h
    exact ⟨by simp [ApiKeyService.hasApiKeys, h], ApiKeyService.getRotatedKey_empty h⟩

/-- C3 witness: a single undecryptable, invalid raw value is discarded; the
pool ends empty, not ready, and acquisition answers none. -/
theorem claim3_witness :
    (ApiKeyService.init noOracle noOracle (some "not-a-key") [] none [] []).availableKeys
      = [] ∧
    ApiKeyService.hasApiKeys
        (ApiKeyService.init noOracle noOracle (some "not-a-key") [] none [] []) = false ∧
    ApiKeyService.getRotatedKey
        (ApiKeyService.init noOracle noOracle (some "not-a-key") [] none [] [])
      = (none, ApiKeyService.init noOracle noOracle (some "not-a-key") [] none [] []) :=
  ⟨by decide,
   (claim3_init_fail_soft noOracle noOracle (some "not-a-key") [] none [] []).2 (by decide)⟩

/-- C4: on an empty pool, getRotatedKey returns the explicit no-credential
signal (null) and leaves the state untouched, instead of raising. -/
theorem claim4_empty_pool_signal (st : ApiKeyService.State)
    (h : st.availableKeys = []) :
    ApiKeyService.getRotatedKey st = (none, st) :=
  ApiKeyService.getRotatedKey_empty h

/-- C4 witness. -/
theorem claim4_witness :
    ApiKeyService.getRotatedKey { availableKeys := [], keyUsageTracker := [] }
      = (none, { availableKeys := [], keyUsageTracker := [] }) :=
  claim4_empty_pool_signal { availableKeys := [], keyUsageTracker := [] } rfl

/-- C6 counterexample: when the same valid credential is configured through
two sources, init stores it twice in availableKeys but only once in the
tracker map.  Retiring it removes only the first list occurrence and the
whole tracker entry, and the very next getRotatedKey call returns the
retired credential again (through the untracked-key fallback branch), so
retire(c) does not prevent c from being returned by a later acquire. -/
theorem claim6_counterexample :
    (ApiKeyService.init noOracle noOracle (some sampleKey) [] (some sampleKey) [] []).availableKeys
      = [sampleKey, sampleKey] ∧
    (ApiKeyService.getRotatedKey
        (ApiKeyService.markKeyAsInvalid sampleKey
          (ApiKeyService.init noOracle noOracle (some sampleKey) [] (some sampleKey) [] []))).1
      = some sampleKey := by
  constructor
  · decide
  · decide

/-- C6 amended: provided the credential occurs at most once in the pool list
(in particular whenever all configured credentials are distinct), retiring it
removes it permanently: the available count drops by exactly 1 (and is
unchanged when the credential was absent, retirement being a no-op then),
and no later sequence of acquisitions and retirements ever returns it. -/
theorem claim6_retirement_amended (st : ApiKeyService.State) (c : String)
    (ops : List ApiKeyService.PoolOp) (hcount : st.availableKeys.count c ≤ 1) :
    ApiKeyService.getAvailableKeyCount (ApiKeyService.markKeyAsInvalid c st)
      = (if c ∈ st.availableKeys then ApiKeyService.getAvailableKeyCount st - 1
          else ApiKeyService.getAvailableKeyCount st) ∧
    ∀ r ∈ (ApiKeyService.runPoolOps ops (ApiKeyService.markKeyAsInvalid c st)).2,
      r ≠ some c := by
  refine ⟨?_, ?_⟩
  · simp only [ApiKeyService.getAvailableKeyCount, ApiKeyService.markKeyAsInvalid]
    exact List.length_erase c st.availableKeys
  · exact ApiKeyService.runPoolOps_no_absent c ops _
      (ApiKeyService.keyAbsent_markKeyAsInvalid c st hcount)

/-- C6 amended witness: two distinct credentials, retire one, two
acquisitions never return it and the count drops from 2 to 1. -/
theorem claim6_amended_witness :
    twoKeyPool.availableKeys.count sampleKey ≤ 1 ∧
    (ApiKeyService.getAvailableKeyCount (ApiKeyService.markKeyAsInvalid sampleKey twoKeyPool)
      = (if sampleKey ∈ twoKeyPool.availableKeys
          then ApiKeyService.getAvailableKeyCount twoKeyPool - 1
          else ApiKeyService.getAvailableKeyCount twoKeyPool) ∧
      ∀ r ∈ (ApiKeyService.runPoolOps [.acquire, .acquire]
          (ApiKeyService.markKeyAsInvalid sampleKey twoKeyPool)).2,
        r ≠ some sampleKey) :=
  ⟨by decide,
   claim6_retirement_amended twoKeyPool sampleKey [.acquire, .acquire] (by decide)⟩

/-- C8: initializing the model list from the configured string
"a,a,b, b ,a" yields exactly ["a", "b"]: entries are trimmed and duplicates
dropped preserving first-occurrence order. -/
theorem claim8_model_dedup : GroqService.initModels "a,a,b, b ,a" = ["a", "b"] := by
  decide

/-- C9 counterexample: the three-acquisition scenario depends on the
iteration order of the keyUsageTracker ConcurrentHashMap, which Java leaves
unspecified (hash-table order), not on the insertion order recorded in
availableKeys.  A pool initialized with sampleKey first and sampleKeyB
second whose map iterates sampleKeyB first — a permutation of the entries
init laid down, which is a legitimate iteration order of the same map —
answers the first acquire with sampleKeyB, not with the first-inserted
credential. -/
theorem claim9_counterexample :
    (ApiKeyService.init noOracle noOracle (some sampleKey) [] (some sampleKeyB) [] []).availableKeys
      = [sampleKey, sampleKeyB] ∧
    List.Perm [(sampleKeyB, 0), (sampleKey, 0)]
      (ApiKeyService.init noOracle noOracle (some sampleKey) [] (some sampleKeyB) [] []).keyUsageTracker ∧
    (ApiKeyService.getRotatedKey
        { availableKeys := [sampleKey, sampleKeyB],
          keyUsageTracker := [(sampleKeyB, 0), (sampleKey, 0)] }).1
      = some sampleKeyB ∧
    sampleKeyB ≠ sampleKey := by
  refine ⟨by decide, ?_, by decide, by decide⟩
  have h : (ApiKeyService.init noOracle noOracle (some sampleKey) [] (some sampleKeyB) [] []).keyUsageTracker
      = [(sampleKey, 0), (sampleKeyB, 0)] := by decide
  rw [h]
  exact List.Perm.swap _ _ _

/-- C9 amended: ties between equally used credentials are broken by the
usage map's iteration order, not by insertion order: with tracker iteration
order a before b (counters zero) and a non-empty key list, three
acquisitions return a, b, a and leave counters a:2, b:1.  The claimed
sequence k1, k2, k1 with counts k1:2, k2:1 holds exactly when the map
iterates k1 first. -/
theorem claim9_tie_by_map_order (a b : String) (keys : List String)
    (hab : a ≠ b) (hkeys : keys ≠ []) :
    (ApiKeyService.runPoolOps [.acquire, .acquire, .acquire]
        { availableKeys := keys, keyUsageTracker := [(a, 0), (b, 0)] }).2
      = [some a, some b, some a] ∧
    (ApiKeyService.runPoolOps [.acquire, .acquire, .acquire]
        { availableKeys := keys, keyUsageTracker := [(a, 0), (b, 0)] }).1.keyUsageTracker
      = [(a, 2), (b, 1)] := by
  obtain ⟨k0, ks, rfl⟩ : ∃ k0 ks, keys = k0 :: ks := by
    cases keys with
    | nil => exact absurd rfl hkeys
    | cons k0 ks => exact ⟨k0, ks, rfl⟩
  have hba : b ≠ a := Ne.symm hab
  simp [ApiKeyService.runPoolOps, ApiKeyService.getRotatedKey,
    ApiKeyService.minByRequestCount, ApiKeyService.minEntryAux, bumpAssoc, hab, hba]

/-- C10: a raw value that is already a syntactically valid plain credential
(gsk_ prefix, alphanumeric body, length at least 40) never matches the
Base64 detector (its underscore is outside the detector's alphabet), is
never classified as encrypted regardless of what the decoder would accept,
resolves to itself, and init adds exactly that string to the pool
unchanged. -/
theorem claim10_plain_key_identity (b64ok : String → Bool) (aes b64 : String → Option String)
    (r : String) (hv : ApiKeyService.isValidGroqKey r = true) :
    ApiKeyService.matchesBase64Regex r = false ∧
    ApiKeyService.isProbablyEncrypted b64ok r = false ∧
    ApiKeyService.resolveKey aes b64 r = some r ∧
    (ApiKeyService.init aes b64 (some r) [] none [] []).availableKeys = [r] := by
  obtain ⟨rest, heq, -, -, hlen⟩ := ApiKeyService.valid_key_shape hv
  have htrim := ApiKeyService.javaTrim_valid hv
  have hne : javaTrim r ≠ "" := by
    rw [htrim]
    intro h0
    rw [h0] at hlen
    simp [String.length] at hlen
  refine ⟨ApiKeyService.matchesBase64Regex_gsk heq,
    ApiKeyService.isProbablyEncrypted_gsk _ heq,
    ApiKeyService.resolveKey_valid aes b64 hv, ?_⟩
  have hner : r ≠ "" := by
    intro h0
    rw [h0] at hlen
    simp [String.length] at hlen
  have hcollect : ApiKeyService.collectRawKeys (some r) [] none [] [] = [r] := by
    unfold ApiKeyService.collectRawKeys
    simp [hne, htrim, hner]
  have hinit : (ApiKeyService.init aes b64 (some r) [] none [] []).availableKeys
      = (ApiKeyService.collectRawKeys (some r) [] none [] []).filterMap
          (ApiKeyService.resolveKey aes b64) := by
    simpa using ApiKeyService.foldl_processKey_availableKeys aes b64
      (ApiKeyService.collectRawKeys (some r) [] none [] [])
      { availableKeys := [], keyUsageTracker := [] }
  rw [hinit, hcollect]
  simp [ApiKeyService.resolveKey_valid aes b64 hv]

/-- C10 witness: the sample key, with a Base64 decoder that accepts
everything, still goes down the plain-text path unchanged. -/
theorem claim10_witness :
    ApiKeyService.isValidGroqKey sampleKey = true ∧
    (ApiKeyService.matchesBase64Regex sampleKey = false ∧
     ApiKeyService.isProbablyEncrypted (fun _ => true) sampleKey = false ∧
     ApiKeyService.resolveKey noOracle noOracle sampleKey = some sampleKey ∧
     (ApiKeyService.init noOracle noOracle (some sampleKey) [] none [] []).availableKeys
       = [sampleKey]) :=
  ⟨by decide,
   claim10_plain_key_identity (fun _ => true) noOracle noOracle sampleKey (by decide)⟩

/-- C9 amended witness. -/
theorem claim9_tie_witness :
    sampleKey ≠ sampleKeyB ∧ (["k"] : List String) ≠ [] ∧
    ((ApiKeyService.runPoolOps [.acquire, .acquire, .acquire]
        { availableKeys := ["k"], keyUsageTracker := [(sampleKey, 0), (sampleKeyB, 0)] }).2
      = [some sampleKey, some sampleKeyB, some sampleKey] ∧
    (ApiKeyService.runPoolOps [.acquire, .acquire, .acquire]
        { availableKeys := ["k"], keyUsageTracker := [(sampleKey, 0), (sampleKeyB, 0)] }).1.keyUsageTracker
      = [(sampleKey, 2), (sampleKeyB, 1)]) :=
  ⟨by decide, by decide,
   claim9_tie_by_map_order sampleKey sampleKeyB ["k"] (by decide) (by decide)⟩

/-- Upstream that always answers HTTP 500 with body boom. -/
def httpAllFail : Nat → String → String → GroqService.HttpResponse := fun _ _ _ => .err 500 "boom"

/-- Upstream that always succeeds with a fixed body. -/
def httpOk : Nat → String → String → GroqService.HttpResponse := fun _ _ _ => .ok "body"

/-- Upstream that always answers HTTP 401. -/
def http401 : String → String → GroqService.HttpResponse := fun _ _ => .err 401 "invalid_api_key"

/-- Content extraction that always parses to the text hi. -/
def extractHi : String → Option String := fun _ => some "hi"

/-- A dispatcher state with two models, cursor at 0, fresh counters, over the
two-credential pool. -/
def groqSt : GroqService.State :=
  { apiKeyService := twoKeyPool
    availableModels := ["m1", "m2"]
    currentModelIndex := 0
    modelFailureCount := [("m1", 0), ("m2", 0)]
    modelSuccessCount := [("m1", 0), ("m2", 0)] }

/-- The two-credential pool after one acquisition of sampleKey. -/
def bumpedPool : ApiKeyService.State :=
  { availableKeys := [sampleKey, sampleKeyB],
    keyUsageTracker := [(sampleKey, 1), (sampleKeyB, 0)] }

/-- C1: when every upstream exchange fails, one sendWithModelFallback call
makes exactly K single-model attempts (K the number of configured models)
and raises exactly one aggregate error whose payload carries the full list
of all K configured model names together with the error message of the last
attempt. -/
theorem claim1_exhaustion (extract : String → Option String)
    (http : Nat → String → String → GroqService.HttpResponse) (st : GroqService.State)
    (hcur : st.currentModelIndex < st.availableModels.length)
    (hhttp : ∀ n k m, (http n k m).isErr = true) :
    (GroqService.sendWithModelFallback extract http st).totalModelsTried
      = st.availableModels.length ∧
    (GroqService.sendWithModelFallback extract http st).trace.length
      = st.availableModels.length ∧
    ∃ msg mdl,
      (GroqService.sendWithModelFallback extract http st).result
        = Except.error { modelsTried := st.availableModels, lastError := msg } ∧
      (GroqService.sendWithModelFallback extract http st).trace.getLast?
        = some (mdl, Except.error msg) := by
  unfold GroqService.sendWithModelFallback
  obtain ⟨h1, h2, h3, msg, mdl, h4, h5⟩ := GroqService.allfail_go extract http hhttp
    st.availableModels.length st.currentModelIndex hcur
    st.availableModels.length st 0 "" [] rfl
    (by rw [Nat.add_zero, Nat.mod_eq_of_lt hcur]) (by omega) (by omega)
  exact ⟨h1, by simpa using h2, msg, mdl, h4, h5⟩

/-- C1 witness: two models, upstream always failing; exactly two attempts
and one aggregate error listing both models. -/
theorem claim1_witness :
    groqSt.currentModelIndex < groqSt.availableModels.length ∧
    (∀ n k m, (httpAllFail n k m).isErr = true) ∧
    ((GroqService.sendWithModelFallback noOracle httpAllFail groqSt).totalModelsTried
        = groqSt.availableModels.length ∧
      (GroqService.sendWithModelFallback noOracle httpAllFail groqSt).trace.length
        = groqSt.availableModels.length ∧
      ∃ msg mdl,
        (GroqService.sendWithModelFallback noOracle httpAllFail groqSt).result
          = Except.error { modelsTried := groqSt.availableModels, lastError := msg } ∧
        (GroqService.sendWithModelFallback noOracle httpAllFail groqSt).trace.getLast?
          = some (mdl, Except.error msg)) :=
  ⟨by decide, fun _ _ _ => rfl,
   claim1_exhaustion noOracle httpAllFail groqSt (by decide) (fun _ _ _ => rfl)⟩

/-- C5: when the acquired credential receives HTTP 401 for the attempt, the
fallback-loop step retires that credential before the failure is surfaced
(the credential is gone from both the key list and the tracker of the
resulting state), the attempt is recorded as a failure of the model that was
tried (its failure counter grows by one), and the dispatcher advances the
model cursor by one position modulo the model count. -/
theorem claim5_auth_retirement (extract : String → Option String)
    (http : String → String → GroqService.HttpResponse) (startIndex : Nat)
    (st : GroqService.State) (tried : Nat) (k : String) (pool1 : ApiKeyService.State)
    (body : String)
    (hacq : ApiKeyService.getRotatedKey st.apiKeyService = (some k, pool1))
    (htrim : javaTrim k ≠ "")
    (hhttp : http k (st.availableModels.getD st.currentModelIndex "") = .err 401 body)
    (hcount : st.apiKeyService.availableKeys.count k ≤ 1) :
    (∃ m, (GroqService.fallbackStep extract http startIndex st tried).ev
        = (st.availableModels.getD st.currentModelIndex "", Except.error m)) ∧
    k ∉ (GroqService.fallbackStep extract http startIndex st
        tried).state.apiKeyService.availableKeys ∧
    k ∉ ((GroqService.fallbackStep extract http startIndex st
        tried).state.apiKeyService.keyUsageTracker.map Prod.fst) ∧
    getAssoc (GroqService.fallbackStep extract http startIndex st tried).state.modelFailureCount
        (st.availableModels.getD st.currentModelIndex "")
      = getAssoc st.modelFailureCount (st.availableModels.getD st.currentModelIndex "") + 1 ∧
    (GroqService.fallbackStep extract http startIndex st tried).state.currentModelIndex
      = (st.currentModelIndex + 1) % st.availableModels.length := by
  obtain ⟨hpool2, m, hm⟩ := GroqService.sendWithSingleModel_401 extract http
    (st.availableModels.getD st.currentModelIndex "") st.apiKeyService hacq htrim hhttp
  obtain ⟨hapi, hmodels, hcur2, hfail, hev, htried⟩ :=
    GroqService.fallbackStep_error_state extract http startIndex st tried hm
  have hpool1keys : pool1.availableKeys = st.apiKeyService.availableKeys := by
    have h := ApiKeyService.getRotatedKey_availableKeys st.apiKeyService
    rw [hacq] at h
    exact h
  have hcount1 : pool1.availableKeys.count k ≤ 1 := by
    rw [hpool1keys]
    exact hcount
  have habs := ApiKeyService.keyAbsent_markKeyAsInvalid k pool1 hcount1
  refine ⟨⟨m, hev⟩, ?_, ?_, ?_, hcur2⟩
  · rw [hapi, hpool2]
    exact habs.1
  · rw [hapi, hpool2]
    exact habs.2
  · rw [hfail, getAssoc_putAssoc_self]

/-- C5 witness: fresh two-credential pool, 401 upstream; the acquired
credential is retired, the failure counter of m1 grows, the cursor moves to
position 1. -/
theorem claim5_witness :
    ApiKeyService.getRotatedKey groqSt.apiKeyService = (some sampleKey, bumpedPool) ∧
    javaTrim sampleKey ≠ "" ∧
    http401 sampleKey (groqSt.availableModels.getD groqSt.currentModelIndex "")
      = .err 401 "invalid_api_key" ∧
    groqSt.apiKeyService.availableKeys.count sampleKey ≤ 1 ∧
    ((∃ m, (GroqService.fallbackStep noOracle http401 0 groqSt 0).ev
        = (groqSt.availableModels.getD groqSt.currentModelIndex "", Except.error m)) ∧
     sampleKey ∉ (GroqService.fallbackStep noOracle http401 0 groqSt
        0).state.apiKeyService.availableKeys ∧
     sampleKey ∉ ((GroqService.fallbackStep noOracle http401 0 groqSt
        0).state.apiKeyService.keyUsageTracker.map Prod.fst) ∧
     getAssoc (GroqService.fallbackStep noOracle http401 0 groqSt 0).state.modelFailureCount
        (groqSt.availableModels.getD groqSt.currentModelIndex "")
      = getAssoc groqSt.modelFailureCount
          (groqSt.availableModels.getD groqSt.currentModelIndex "") + 1 ∧
     (GroqService.fallbackStep noOracle http401 0 groqSt 0).state.currentModelIndex
      = (groqSt.currentModelIndex + 1) % groqSt.availableModels.length) :=
  ⟨by decide, by decide, rfl, by decide,
   claim5_auth_retirement noOracle http401 0 groqSt 0 sampleKey bumpedPool
     "invalid_api_key" (by decide) (by decide) rfl (by decide)⟩

/-- C7: when the attempt with the model under the cursor succeeds, the call
returns that content after one attempt, the cursor still points at the same
model (success never advances it), the model list is untouched, only the
successful model's counters change (success incremented, failures reset to
zero, every other model's counters unchanged), and any next call attempts
that same model first. -/
theorem claim7_sticky_cursor (extract : String → Option String)
    (http : Nat → String → String → GroqService.HttpResponse) (st : GroqService.State)
    (c : String)
    (hcur : st.currentModelIndex < st.availableModels.length)
    (hok : (GroqService.sendWithSingleModel extract (http 0)
        (st.availableModels.getD st.currentModelIndex "") st.apiKeyService).1
      = Except.ok c) :
    (GroqService.sendWithModelFallback extract http st).result = Except.ok c ∧
    (GroqService.sendWithModelFallback extract http st).totalModelsTried = 1 ∧
    (GroqService.sendWithModelFallback extract http st).state.currentModelIndex
      = st.currentModelIndex ∧
    (GroqService.sendWithModelFallback extract http st).state.availableModels
      = st.availableModels ∧
    getAssoc (GroqService.sendWithModelFallback extract http st).state.modelSuccessCount
        (st.availableModels.getD st.currentModelIndex "")
      = getAssoc st.modelSuccessCount (st.availableModels.getD st.currentModelIndex "") + 1 ∧
    getAssoc (GroqService.sendWithModelFallback extract http st).state.modelFailureCount
        (st.availableModels.getD st.currentModelIndex "") = 0 ∧
    (∀ mo, mo ≠ st.availableModels.getD st.currentModelIndex "" →
      getAssoc (GroqService.sendWithModelFallback extract http st).state.modelSuccessCount mo
        = getAssoc st.modelSuccessCount mo ∧
      getAssoc (GroqService.sendWithModelFallback extract http st).state.modelFailureCount mo
        = getAssoc st.modelFailureCount mo) ∧
    (∀ (extract2 : String → Option String)
        (http2 : Nat → String → String → GroqService.HttpResponse),
      ((GroqService.sendWithModelFallback extract2 http2
          (GroqService.sendWithModelFallback extract http st).state).trace.head?).map Prod.fst
        = some (st.availableModels.getD st.currentModelIndex "")) := by
  cases hK : st.availableModels.length with
  | zero =>
    exfalso
    omega
  | succ f =>
    obtain ⟨st', hstep, hapi, hmodels, hcur2, hsucc, hfail⟩ :=
      GroqService.fallbackStep_ok_parts extract (http 0) st.currentModelIndex st 0 hok
    have hgo : GroqService.sendWithModelFallback extract http st =
        { result := Except.ok c, state := st', totalModelsTried := 0 + 1,
          trace := [] ++ [(st.availableModels.getD st.currentModelIndex "", Except.ok c)] } := by
      unfold GroqService.sendWithModelFallback
      rw [hK]
      simp only [GroqService.fallbackGo]
      rw [hstep]
    rw [hgo]
    refine ⟨rfl, rfl, hcur2, hmodels, ?_, ?_, ?_, ?_⟩
    · rw [hsucc, getAssoc_putAssoc_self]
    · rw [hfail, getAssoc_putAssoc_self]
    · intro mo hne
      constructor
      · rw [hsucc, getAssoc_putAssoc_ne _ _ _ _ hne]
      · rw [hfail, getAssoc_putAssoc_ne _ _ _ _ hne]
    · intro extract2 http2
      have h := GroqService.sendWithModelFallback_first_model extract2 http2 st'
        (by rw [hmodels]; omega)
      rw [hmodels, hcur2] at h
      exact h

/-- C7 witness: success with m1 on a fresh dispatcher; one attempt, cursor
still 0, counters m1 success 1 and failure 0, m2 untouched, and a second
call tries m1 first. -/
theorem claim7_witness :
    groqSt.currentModelIndex < groqSt.availableModels.length ∧
    (GroqService.sendWithSingleModel extractHi (httpOk 0)
        (groqSt.availableModels.getD groqSt.currentModelIndex "")
        groqSt.apiKeyService).1 = Except.ok "hi" ∧
    ((GroqService.sendWithModelFallback extractHi httpOk groqSt).result = Except.ok "hi" ∧
     (GroqService.sendWithModelFallback extractHi httpOk groqSt).totalModelsTried = 1 ∧
     (GroqService.sendWithModelFallback extractHi httpOk groqSt).state.currentModelIndex
       = groqSt.currentModelIndex ∧
     (GroqService.sendWithModelFallback extractHi httpOk groqSt).state.availableModels
       = groqSt.availableModels ∧
     getAssoc (GroqService.sendWithModelFallback extractHi httpOk groqSt).state.modelSuccessCount
         (groqSt.availableModels.getD groqSt.currentModelIndex "")
       = getAssoc groqSt.modelSuccessCount
           (groqSt.availableModels.getD groqSt.currentModelIndex "") + 1 ∧
     getAssoc (GroqService.sendWithModelFallback extractHi httpOk groqSt).state.modelFailureCount
         (groqSt.availableModels.getD groqSt.currentModelIndex "") = 0 ∧
     (∀ mo, mo ≠ groqSt.availableModels.getD groqSt.currentModelIndex "" →
       getAssoc (GroqService.sendWithModelFallback extractHi httpOk
           groqSt).state.modelSuccessCount mo
         = getAssoc groqSt.modelSuccessCount mo ∧
       getAssoc (GroqService.sendWithModelFallback extractHi httpOk
           groqSt).state.modelFailureCount mo
         = getAssoc groqSt.modelFailureCount mo) ∧
     (∀ (extract2 : String → Option String)
         (http2 : Nat → String → String → GroqService.HttpResponse),
       ((GroqService.sendWithModelFallback extract2 http2
           (GroqService.sendWithModelFallback extractHi httpOk groqSt).state).trace.head?).map
           Prod.fst
         = some (groqSt.availableModels.getD groqSt.currentModelIndex ""))) :=
  ⟨by decide, rfl, claim7_sticky_cursor extractHi httpOk groqSt "hi" (by decide) rfl⟩
